import Mathlib

/-!
Verification development for the tabber browser extension.

This file gives a shallow embedding, in Lean, of the core logic of the
repository: the crypto service envelope format (src/services/crypto.js),
the secure storage wrapper (src/services/secure-storage.js), the
sanitizer (src/services/sanitizer.js), the AI response parser
(src/services/ai-service.js) and the color validation in
src/background.js.  Platform primitives that the code calls
(WebCrypto AES-GCM/PBKDF2, `btoa`/`atob`, `TextEncoder`, ECMAScript
regular expressions, `JSON.parse`) are modelled explicitly; every
function translated from the repository keeps the structure and the
names of the JavaScript source.
-/

namespace Tabber

/-- A JavaScript value as it occurs in the extension's storage
namespace: strings, booleans, numbers, or `undefined`.  (Objects never
occur as field values inside the `tabber` namespace.) -/
inductive JVal where
  | str : String → JVal
  | boolean : Bool → JVal
  | num : Int → JVal
  | undef : JVal
deriving DecidableEq, Repr

/-- JavaScript truthiness of a `JVal`: the empty string, `false`, `0`
and `undefined` are falsy, everything else is truthy. -/
def JVal.truthy : JVal → Bool
  | .str s => !s.data.isEmpty
  | .boolean b => b
  | .num n => n != 0
  | .undef => false

/-- A JavaScript object used as a string-keyed map (e.g. the value
stored under the `tabber` namespace key), modelled as an association
list in property order. -/
abbrev NS := List (String × JVal)

/-- Property read `o[k]`: first binding for `k`, if any. -/
def nsLookup : NS → String → Option JVal
  | [], _ => none
  | (k', v) :: rest, k => if k' = k then some v else nsLookup rest k

/-- Property write `o[k] = v`: replaces the binding in place if the key
exists, otherwise appends it (JavaScript insertion order). -/
def nsSet : NS → String → JVal → NS
  | [], k, v => [(k, v)]
  | (k', v') :: rest, k, v =>
      if k' = k then (k, v) :: rest else (k', v') :: nsSet rest k v

/-- ECMAScript `\s`, restricted to its ASCII members (space, tab, line
feed, vertical tab, form feed, carriage return); the repository's
inputs in question contain no exotic Unicode whitespace. -/
def isWsChar (c : Char) : Bool :=
  c = ' ' || c = '\t' || c = '\n' || c = '\r' || c = '\x0b' || c = '\x0c'

/-- `String.prototype.toLowerCase` (platform primitive, modelled on its
ASCII range, which covers the color palette and its case variants). -/
def jsToLowerCase (s : String) : String := String.mk (s.data.map Char.toLower)

/-- `String.prototype.trim` (platform primitive, modelled on ASCII
whitespace). -/
def jsTrim (s : String) : String :=
  String.mk ((s.data.dropWhile isWsChar).reverse.dropWhile isWsChar).reverse

/-- `GROUP_COLORS` from src/background.js line 12: the fixed palette of
the nine colors supported by `chrome.tabGroups`. -/
def GROUP_COLORS : List String :=
  ["blue", "red", "yellow", "green", "pink", "purple", "cyan", "orange", "grey"]

/-- `validateColor` from src/background.js lines 126-133.  The argument
is the model-supplied color (`none` models `undefined`, so
`color?.toLowerCase()` short-circuits); `r` models the random index
`Math.floor(Math.random() * GROUP_COLORS.length)` drawn when the color
is not in the palette. -/
def validateColor (color : Option String) (r : Fin 9) : String :=
  let lowerColor : Option String := color.map jsToLowerCase
  match lowerColor with
  | some lc => if GROUP_COLORS.contains lc then lc else GROUP_COLORS.getD r.val ""
  | none => GROUP_COLORS.getD r.val ""

/-! ### Base64 transport encoding

Models of the platform primitives `btoa` and `atob`, as used by
`CryptoService.arrayBufferToBase64` / `base64ToArrayBuffer`.  Bytes are
natural numbers below 256. -/

/-- The 64-character base64 alphabet. -/
def b64Alphabet : List Char :=
  "ABCDEFGHIJKLMNOPQRSTUVWXYZabcdefghijklmnopqrstuvwxyz0123456789+/".data

/-- The base64 digit for a 6-bit value. -/
def b64Char (n : Nat) : Char := b64Alphabet.getD n 'A'

/-- The 6-bit value of a base64 digit, `none` for a character outside
the alphabet (on which `atob` throws). -/
def b64Index (c : Char) : Option Nat :=
  let rec go : List Char → Nat → Option Nat
    | [], _ => none
    | a :: rest, i => if a = c then some i else go rest (i + 1)
  go b64Alphabet 0

/-- `btoa` on a byte sequence: standard base64 with `=` padding. -/
def b64EncodeBytes : List Nat → List Char
  | [] => []
  | [a] => [b64Char (a / 4), b64Char (a % 4 * 16), '=', '=']
  | [a, b] => [b64Char (a / 4), b64Char (a % 4 * 16 + b / 16), b64Char (b % 16 * 4), '=']
  | a :: b :: c :: rest =>
      b64Char (a / 4) :: b64Char (a % 4 * 16 + b / 16) ::
        b64Char (b % 16 * 4 + c / 64) :: b64Char (c % 64) ::
        b64EncodeBytes rest

/-- `atob` on a character sequence: decodes well-formed padded base64,
`none` (a thrown `InvalidCharacterError`) otherwise. -/
def b64DecodeBytes : List Char → Option (List Nat)
  | [] => some []
  | c0 :: c1 :: c2 :: c3 :: rest => do
      let a ← b64Index c0
      let b ← b64Index c1
      if c2 = '=' then
        if c3 = '=' ∧ rest = [] then some [a * 4 + b / 16] else none
      else
        let c ← b64Index c2
        if c3 = '=' then
          if rest = [] then some [a * 4 + b / 16, b % 16 * 16 + c / 4] else none
        else do
          let d ← b64Index c3
          let tail ← b64DecodeBytes rest
          some ((a * 4 + b / 16) :: (b % 16 * 16 + c / 4) :: (c % 4 * 64 + d) :: tail)
  | _ => none

/-- `CryptoService.arrayBufferToBase64` (src/services/crypto.js lines
151-158): byte-wise `String.fromCharCode` then `btoa`. -/
def arrayBufferToBase64 (bytes : List Nat) : String := String.mk (b64EncodeBytes bytes)

/-- `CryptoService.base64ToArrayBuffer` (src/services/crypto.js lines
161-168): `atob` then byte-wise `charCodeAt`; `none` when `atob`
throws. -/
def base64ToArrayBuffer (s : String) : Option (List Nat) := b64DecodeBytes s.data

/-! ### Text encoding

Model of the platform `TextEncoder`/`TextDecoder` pair used by
`CryptoService.encrypt`/`decrypt`.  Each character is laid out as three
bytes (its code point in big-endian base 256); the byte layout differs
from UTF-8, but the properties the code relies on — injectivity and
exact round-tripping — are preserved. -/

/-- `TextEncoder.encode`, modelled: three bytes per character. -/
def textEncode (s : String) : List Nat :=
  s.data.flatMap fun c => [c.toNat / 65536, c.toNat / 256 % 256, c.toNat % 256]

/-- `TextDecoder.decode`, modelled: inverse of `textEncode`; `none` on
byte sequences that decode to no string. -/
def textDecodeChars : List Nat → Option (List Char)
  | [] => some []
  | b0 :: b1 :: b2 :: rest =>
      let n := b0 * 65536 + b1 * 256 + b2
      if h : n.isValidChar then
        (textDecodeChars rest).map fun cs => Char.ofNatAux n h :: cs
      else none
  | _ => none

/-- String-level wrapper around `textDecodeChars`. -/
def textDecode (bytes : List Nat) : Option String :=
  (textDecodeChars bytes).map String.mk

/-! ### Cryptographic engine (src/services/crypto.js)

The WebCrypto primitives (`crypto.subtle.deriveKey` with PBKDF2 and
`crypto.subtle.encrypt`/`decrypt` with AES-GCM) are platform calls, not
repository code.  They are modelled here by an executable cipher that
satisfies the interface contract the repository relies on: encryption
maps `n` plaintext bytes to `n + 16` ciphertext bytes (body plus
16-byte authentication tag), all below 256, and decryption under the
same key and IV restores the plaintext exactly.  The repository-level
envelope assembly, slicing, base64 transport and classification are
translated from the source verbatim. -/

/-- A toy mixing step (stands in for the platform hash inside PBKDF2
and the AES key schedule). -/
def mixStep (acc n : Nat) : Nat := (acc * 131 + n + 7) % 65536

/-- Fold a byte/number sequence into a 16-bit accumulator. -/
def hashNats (l : List Nat) : Nat := l.foldl mixStep 17

/-- `CryptoService.deriveKey` (crypto.js lines 15-41): PBKDF2 over
{password, salt}, modelled as an opaque numeric key handle determined
by the pair. -/
def deriveKey (password : String) (salt : List Nat) : Nat :=
  hashNats ((password.data.map Char.toNat) ++ (256 :: salt))

/-- Keystream byte `i` of the modelled AES-GCM instance under `key` and
`iv`. -/
def keystreamByte (key : Nat) (iv : List Nat) (i : Nat) : Nat :=
  hashNats (key :: iv ++ [i]) % 256

/-- XOR a byte list against the keystream, starting at position `i`. -/
def xorStream (key : Nat) (iv : List Nat) : Nat → List Nat → List Nat
  | _, [] => []
  | i, b :: bs => (b ^^^ keystreamByte key iv i) :: xorStream key iv (i + 1) bs

/-- The 16-byte authentication tag of the modelled AES-GCM instance. -/
def gcmTag (key : Nat) (iv : List Nat) (data : List Nat) : List Nat :=
  (List.range 16).map fun j => hashNats (key :: iv ++ (999 :: j :: data)) % 256

/-- `crypto.subtle.encrypt` with AES-GCM (platform primitive,
modelled): ciphertext body followed by the 16-byte tag. -/
def subtleEncrypt (key : Nat) (iv data : List Nat) : List Nat :=
  xorStream key iv 0 data ++ gcmTag key iv data

/-- `crypto.subtle.decrypt` with AES-GCM (platform primitive,
modelled): fails when fewer than 16 bytes are present or when the tag
does not authenticate. -/
def subtleDecrypt (key : Nat) (iv ct : List Nat) : Option (List Nat) :=
  if ct.length < 16 then none
  else
    if gcmTag key iv (xorStream key iv 0 (ct.take (ct.length - 16))) =
        ct.drop (ct.length - 16)
    then some (xorStream key iv 0 (ct.take (ct.length - 16)))
    else none

/-- `CryptoService.getDeviceKey` (crypto.js lines 44-54): SHA-256 of
the extension id truncated to 16 bytes (the platform digest is
modelled by `hashNats`). -/
def getDeviceKey : List Nat :=
  (List.range 16).map fun i =>
    hashNats (("ai-tab-grouper".data.map Char.toNat) ++ [i]) % 256

/-- `CryptoService.getDevicePassword` (crypto.js lines 125-128). -/
def getDevicePassword : String := arrayBufferToBase64 getDeviceKey

/-- The `userPassword || devicePassword` default at the top of
`encrypt` and `decrypt`: `null` (here `none`) and the empty string are
falsy and fall back to the device password. -/
def resolvePassword : Option String → String
  | some p => if p.isEmpty then getDevicePassword else p
  | none => getDevicePassword

/-- `CryptoService.encrypt` (crypto.js lines 57-91).  `salt` and `iv`
are the bytes drawn by the two `crypto.getRandomValues` calls (16 and
12 bytes); the function returns the base64 envelope over
`salt ‖ iv ‖ ciphertext`. -/
def encrypt (plaintext : String) (userPassword : Option String)
    (salt iv : List Nat) : String :=
  let password := resolvePassword userPassword
  let key := deriveKey password salt
  arrayBufferToBase64 (salt ++ iv ++ subtleEncrypt key iv (textEncode plaintext))

/-- `CryptoService.decrypt` (crypto.js lines 94-122): base64-decode,
slice off the 16-byte salt and 12-byte IV, decrypt the rest.  Any
failure (bad base64, failed authentication, undecodable plaintext
bytes) is caught by the surrounding `try` and rethrown as the single
`Decryption failed` error, modelled by `none`. -/
def decrypt (ciphertext : String) (userPassword : Option String) : Option String :=
  match base64ToArrayBuffer ciphertext with
  | none => none
  | some combined =>
      match subtleDecrypt (deriveKey (resolvePassword userPassword) (combined.take 16))
          ((combined.drop 16).take 12) (combined.drop 28) with
      | none => none
      | some decryptedData => textDecode decryptedData

/-- Whether a character is in the base64 alphabet
(`[A-Za-z0-9+/]`). -/
def isB64AlphaChar (c : Char) : Bool :=
  (('A' ≤ c ∧ c ≤ 'Z') ∨ ('a' ≤ c ∧ c ≤ 'z') ∨ ('0' ≤ c ∧ c ≤ '9') ∨ c = '+' ∨ c = '/' : Prop)

/-- The test `/^[A-Za-z0-9+/]+=*$/.test(v)`: one or more alphabet
characters followed by zero or more `=`.  (The maximal alphabet prefix
is unique because `=` is not in the alphabet, so greedy matching and
this direct decomposition agree.) -/
def base64RegexTest (l : List Char) : Bool :=
  !(l.takeWhile isB64AlphaChar).isEmpty &&
    (l.drop (l.takeWhile isB64AlphaChar).length).all (· = '=')

/-- `CryptoService.isEncrypted` (crypto.js lines 131-148).  The JS
minimum length is the float `(16 + 12 + 16) * 4 / 3 = 58.66…`, so
`value.length >= minLength` is `3 * length ≥ 176` over the naturals.
An empty string is falsy and returns `false` at the `!value` guard;
`value.startsWith('sk-')` is the check on the first three
characters. -/
def isEncrypted (value : String) : Bool :=
  if value.data.isEmpty then false
  else if value.data.take 3 = ['s', 'k', '-'] then false
  else 3 * value.data.length ≥ 176 && base64RegexTest value.data

/-! ### Secure storage (src/services/secure-storage.js) -/

/-- The default `sensitiveKeys` option (secure-storage.js line 15). -/
def sensitiveKeys : List String := ["openaiKey", "claudeKey", "groqKey", "geminiKey"]

/-- `isEncrypted` as applied to an arbitrary stored value: the `typeof
value !== 'string'` guard makes it `false` off strings. -/
def jvalIsEncrypted : JVal → Bool
  | .str s => isEncrypted s
  | _ => false

/-- The loop body of `SecureStorage.set` (secure-storage.js lines
96-107): a sensitive, truthy, non-blank string value is encrypted
before being merged; everything else is merged unchanged.  `rnd i`
supplies the fresh 16-byte salt and 12-byte IV that
`crypto.getRandomValues` draws for the `i`-th encryption of this
call. -/
def setGo (sens : List String) (rnd : Nat → List Nat × List Nat) :
    NS → List (String × JVal) → Nat → NS
  | tabberData, [], _ => tabberData
  | tabberData, (key, value) :: rest, i =>
      if sens.contains key ∧ value.truthy then
        match value with
        | .str s =>
            if (jsTrim s).data.isEmpty then
              setGo sens rnd (nsSet tabberData key value) rest i
            else
              let (salt, iv) := rnd i
              setGo sens rnd (nsSet tabberData key (.str (encrypt s none salt iv))) rest (i + 1)
        | _ => setGo sens rnd (nsSet tabberData key value) rest i
      else setGo sens rnd (nsSet tabberData key value) rest i

/-- `SecureStorage.set` (secure-storage.js lines 91-114): load the
namespace object, merge every item (encrypting sensitive non-blank
strings), persist the result. -/
def secureSet (sens : List String) (rnd : Nat → List Nat × List Nat)
    (tabberData : NS) (items : List (String × JVal)) : NS :=
  setGo sens rnd tabberData items 0

/-- The per-key body of `SecureStorage.get` (secure-storage.js lines
64-81): a sensitive truthy value recognized by `isEncrypted` is
decrypted; when decryption throws, the raw value is kept (with a
warning). -/
def getProcessValue (sens : List String) (key : String) (value : JVal) : JVal :=
  if sens.contains key ∧ value.truthy then
    match value with
    | .str s =>
        if isEncrypted s then
          match decrypt s none with
          | some plain => .str plain
          | none => value
        else value
    | _ => value
  else value

/-- `SecureStorage.get` (secure-storage.js lines 56-88) over a list of
requested keys: builds the result object from the keys present in the
namespace object. -/
def secureGet (sens : List String) (tabberData : NS) : List String → NS
  | [] => []
  | key :: rest =>
      match nsLookup tabberData key with
      | some value => (key, getProcessValue sens key value) :: secureGet sens tabberData rest
      | none => secureGet sens tabberData rest

/-- The underlying `chrome.storage` area: the value stored under the
`tabber` namespace key (if present) and the remaining top-level
("flat") keys. -/
structure ChromeStore where
  tabber : Option NS
  flat : NS
deriving DecidableEq, Repr

/-- The `oldKeys` list of `migrateFromFlatStorage` (secure-storage.js
lines 187-202). -/
def oldKeys : List String :=
  ["enabled", "defaultProvider", "provider", "openaiKey", "openaiModel",
   "claudeKey", "claudeModel", "groqKey", "groqModel", "geminiKey",
   "geminiModel", "localUrl", "localModel", "localApiFormat"]

/-- The `hasOldData` test (secure-storage.js lines 211-213):
`Object.hasOwn(result, key) && result[key] !== undefined` for some old
key.  (`chrome.storage.get` returns only keys that are set, modelled by
presence in `flat`.) -/
def hasOldData (st : ChromeStore) : Bool :=
  oldKeys.any fun key =>
    match nsLookup st.flat key with
    | some v => v != JVal.undef
    | none => false

/-- The copy loop of `migrateFromFlatStorage` (secure-storage.js lines
222-230): for each old key present in the flat result (and not
`undefined`), copy it into the namespace object only when the key is
not already there. -/
def mergeStep (flat td : NS) (key : String) : NS :=
  match nsLookup flat key with
  | some v =>
      if v ≠ JVal.undef ∧ nsLookup td key = none then nsSet td key v else td
  | none => td

/-- The copy loop over a list of keys. -/
def mergeOldKeysGo (flat : NS) : List String → NS → NS
  | [], td => td
  | key :: rest, td => mergeOldKeysGo flat rest (mergeStep flat td key)

/-- The copy loop over the `oldKeys` list. -/
def mergeOldKeys (flat td : NS) : NS := mergeOldKeysGo flat oldKeys td

/-- `SecureStorage.migrateFromFlatStorage` (secure-storage.js lines
184-250): when flat data exists, merge it under the namespace key
without overwriting fields already present there, then remove the flat
keys (`storage.remove(oldKeys)`); otherwise do nothing. -/
def migrateFromFlatStorage (st : ChromeStore) : ChromeStore :=
  if hasOldData st then
    { tabber := some (mergeOldKeys st.flat (st.tabber.getD [])),
      flat := st.flat.filter fun p => !oldKeys.contains p.1 }
  else st

/-- The encryption phase of `SecureStorage.migrateToEncrypted`
(secure-storage.js lines 169-177): for each sensitive key whose value
in the snapshot is truthy and not recognized as an envelope, re-save it
through `set` (which encrypts it).  `snapshot` is the namespace object
read once at the top of the loop; `live` is the evolving stored
object.  `rnd i` is the randomness for the `i`-th `set` call. -/
def migrateEncryptGo (sens : List String) (rnd : Nat → Nat → List Nat × List Nat)
    (snapshot : NS) : List String → NS → Nat → NS
  | [], live, _ => live
  | key :: rest, live, i =>
      match nsLookup snapshot key with
      | some v =>
          if v.truthy ∧ !jvalIsEncrypted v then
            migrateEncryptGo sens rnd snapshot rest (secureSet sens (rnd i) live [(key, v)]) (i + 1)
          else migrateEncryptGo sens rnd snapshot rest live i
      | none => migrateEncryptGo sens rnd snapshot rest live i

/-- Entry to the encryption phase: iterate over the configured
sensitive keys against a snapshot of the namespace object. -/
def migrateEncrypt (sens : List String) (rnd : Nat → Nat → List Nat × List Nat)
    (tabberData : NS) : NS :=
  migrateEncryptGo sens rnd tabberData sens tabberData 0

/-! ### Symbolic model of the cipher, for the authentication claim

The concrete executable cipher above cannot express that decryption
under a *wrong* password always fails — that is the authentication
guarantee of AES-GCM itself, which no computable 16-byte tag can
satisfy for literally every pair of distinct passwords.  For the
wrong-key claim the platform primitive is therefore modelled
symbolically (a Dolev-Yao style ideal authenticated cipher):
a ciphertext byte records the exact encryption parameters that
produced it, and `crypto.subtle.decrypt` succeeds exactly on the
unmodified output of `crypto.subtle.encrypt` under the same
{password, salt} derived key and IV — which is what GCM authentication
guarantees.  The repository-level envelope layout and the single
`Decryption failed` error kind are translated from crypto.js exactly as
in the concrete model. -/

/-- A symbolic byte: either a concrete byte (`raw`) or the `i`-th byte
of the AES-GCM ciphertext of `data` under the key derived from
{`password`, `salt`} and the nonce `iv`. -/
inductive SByte where
  | raw : Nat → SByte
  | enc : String → List Nat → List Nat → List Nat → Nat → SByte
deriving DecidableEq, Repr

/-- Ideal `crypto.subtle.encrypt`: `data.length + 16` opaque ciphertext
bytes carrying the encryption parameters. -/
def symGcmEncrypt (password : String) (salt iv data : List Nat) : List SByte :=
  (List.range (data.length + 16)).map (SByte.enc password salt iv data)

/-- Ideal `crypto.subtle.decrypt`: succeeds exactly on an unmodified
ciphertext produced under the same password, salt and IV (GCM
authentication); any mismatch throws, modelled by `none`. -/
def symGcmDecrypt (password : String) (salt iv : List Nat) (ct : List SByte) :
    Option (List Nat) :=
  match ct.head? with
  | some (SByte.enc pw s i d _) =>
      if pw = password ∧ s = salt ∧ i = iv ∧ ct = symGcmEncrypt password salt iv d
      then some d else none
  | _ => none

/-- The concrete value of a symbolic byte, if it has one. -/
def unraw : SByte → Option Nat
  | .raw n => some n
  | _ => none

/-- The argument of `CryptoService.decrypt` in the symbolic model: a
string that base64-decodes to the given bytes, or one on which `atob`
throws (a malformed envelope). -/
inductive CtInput where
  | valid : List SByte → CtInput
  | badBase64 : String → CtInput
deriving DecidableEq, Repr

/-- The single error kind of `CryptoService.decrypt`: every failure
inside the `try` is rethrown as `new Error('Decryption failed - invalid
data or password')`. -/
inductive DecryptErr where
  | decryptionFailed
deriving DecidableEq, Repr

/-- `CryptoService.encrypt` in the symbolic model: the
`salt ‖ iv ‖ ciphertext` concatenation (crypto.js lines 77-86).
`password` is the already-resolved password. -/
def symEncrypt (plaintext : List Nat) (password : String) (salt iv : List Nat) :
    List SByte :=
  salt.map SByte.raw ++ iv.map SByte.raw ++ symGcmEncrypt password salt iv plaintext

/-- `CryptoService.decrypt` in the symbolic model (crypto.js lines
94-122): slice off salt and IV, derive the key from the password and
the extracted salt, decrypt the rest; every failure path is the single
`decryptionFailed` kind.  Symbolic bytes in the salt/IV positions mean
the derived key matches no honest ciphertext, hence failure. -/
def symDecrypt (input : CtInput) (password : String) : Except DecryptErr (List Nat) :=
  match input with
  | .badBase64 _ => .error .decryptionFailed
  | .valid combined =>
      match (combined.take 16).mapM unraw, ((combined.drop 16).take 12).mapM unraw with
      | some salt, some iv =>
          match symGcmDecrypt password salt iv (combined.drop 28) with
          | some d => .ok d
          | none => .error .decryptionFailed
      | _, _ => .error .decryptionFailed

/-! ### ECMAScript regular expressions (platform primitive, modelled)

A small backtracking matcher covering exactly the constructs used by
the repository's patterns: character classes, concatenation, greedy
`?`, greedy and lazy `*` (from which `+`, `{n}`, `{n,m}`, `{n,}` are
expanded), and the word-boundary assertion `\b`.  Alternatives are
tried in ECMAScript order (greedy prefers consuming, lazy prefers not),
a repetition iteration that consumes nothing fails (the ECMAScript
empty-loop rule), and `String.prototype.replace` with the `g` flag
replaces successive leftmost non-overlapping matches. -/

/-- Regular expression syntax (capture groups are irrelevant without
backreferences, so groups are just their bodies). -/
inductive RE where
  | eps
  | cls (p : Char → Bool)
  | cat (r1 r2 : RE)
  | opt (r : RE)
  | rep0 (r : RE)
  | rep0l (r : RE)
  | wb

/-- ECMAScript word character `[A-Za-z0-9_]`. -/
def isWordChar (c : Char) : Bool := c.isAlpha || c.isDigit || c = '_'

/-- Whether position `i` of `s` holds a word character. -/
def isWordAt (s : List Char) (i : Nat) : Bool :=
  match s.get? i with
  | some c => isWordChar c
  | none => false

/-- The `\b` assertion at position `i`: a word character on exactly one
side. -/
def wordBoundaryAt (s : List Char) (i : Nat) : Bool :=
  if i = 0 then isWordAt s 0
  else isWordAt s (i - 1) != isWordAt s i

/-- The backtracking matcher in continuation-passing style: try to
match `re` at position `i` of `s`, calling `k` on each candidate end
position in ECMAScript preference order; the first success wins.
`fuel` bounds the recursion depth (chosen generously by callers). -/
def mmatch (s : List Char) : Nat → RE → Nat → (Nat → Option Nat) → Option Nat
  | 0, _, _, _ => none
  | fuel + 1, re, i, k =>
      match re with
      | .eps => k i
      | .wb => if wordBoundaryAt s i then k i else none
      | .cls p =>
          match s.get? i with
          | some c => if p c then k (i + 1) else none
          | none => none
      | .cat r1 r2 => mmatch s fuel r1 i fun j => mmatch s fuel r2 j k
      | .opt r => (mmatch s fuel r i k).orElse fun _ => k i
      | .rep0 r =>
          (mmatch s fuel r i fun j =>
            if i < j then mmatch s fuel (.rep0 r) j k else none).orElse fun _ => k i
      | .rep0l r =>
          (k i).orElse fun _ =>
            mmatch s fuel r i fun j =>
              if i < j then mmatch s fuel (.rep0l r) j k else none

/-- Recursion-depth budget: proportional to the string length with a
large constant slack for the fixed pattern sizes. -/
def matchFuel (s : List Char) : Nat := (s.length + 2) * 120 + 120

/-- The leftmost match of `re` in `s` starting at or after position
`i`, as a `(start, end)` pair. -/
def findFromGo (s : List Char) (re : RE) : Nat → Nat → Option (Nat × Nat)
  | 0, _ => none
  | fuel + 1, i =>
      match mmatch s (matchFuel s) re i some with
      | some j => some (i, j)
      | none => if i < s.length then findFromGo s re fuel (i + 1) else none

/-- Search wrapper for `findFromGo`. -/
def findFrom (s : List Char) (re : RE) (i : Nat) : Option (Nat × Nat) :=
  findFromGo s re (s.length + 1 - i) i

/-- `String.prototype.replace` with a `g`-flagged regex and a plain
replacement string: replace successive leftmost matches, advancing one
character after an empty match. -/
def replaceGo (s : List Char) (re : RE) (repl : List Char) : Nat → Nat → List Char
  | 0, i => s.drop i
  | fuel + 1, i =>
      match findFrom s re i with
      | none => s.drop i
      | some (a, b) =>
          (s.drop i).take (a - i) ++ repl ++
            (if a < b then replaceGo s re repl fuel b
             else (s.drop b).take 1 ++ replaceGo s re repl fuel (b + 1))

/-- String-level global replace. -/
def replaceAllStr (re : RE) (repl text : String) : String :=
  String.mk (replaceGo text.data re repl.data (text.data.length + 2) 0)

/-- A single literal character. -/
def reChar (c : Char) : RE := .cls (· = c)

/-- Concatenation of a pattern list. -/
def reCat (rs : List RE) : RE := rs.foldr RE.cat .eps

/-- `r{n}`. -/
def reRepExact (r : RE) (n : Nat) : RE := reCat (List.replicate n r)

/-- Greedy nested optionals: up to `k` further copies of `r`, longer
matches preferred. -/
def nestedOpt (r : RE) : Nat → RE
  | 0 => .eps
  | k + 1 => .opt (RE.cat r (nestedOpt r k))

/-- `r{n,m}` (greedy): `n` required copies then up to `m - n` optional
ones. -/
def reRepRange (r : RE) (n m : Nat) : RE :=
  RE.cat (reRepExact r n) (nestedOpt r (m - n))

/-- `r{n,}` (greedy). -/
def reRepAtLeast (r : RE) (n : Nat) : RE := RE.cat (reRepExact r n) (.rep0 r)

/-- `r+` (greedy). -/
def rePlus (r : RE) : RE := RE.cat r (.rep0 r)

/-- `\d`. -/
def clsDigit : RE := .cls Char.isDigit

/-! ### Sanitizer (src/services/sanitizer.js) -/

/-- `[a-zA-Z0-9._%+-]`, the local part class of the email pattern. -/
def emailLocalChar (c : Char) : Bool :=
  c.isAlphanum || c = '.' || c = '_' || c = '%' || c = '+' || c = '-'

/-- `[a-zA-Z0-9.-]`, the domain class of the email pattern. -/
def emailDomChar (c : Char) : Bool := c.isAlphanum || c = '.' || c = '-'

/-- `patterns.email.regex` (sanitizer.js line 20):
`[a-zA-Z0-9._%+-]+@[a-zA-Z0-9.-]+\.[a-zA-Z]{2,}`. -/
def emailRegex : RE :=
  reCat [rePlus (.cls emailLocalChar), reChar '@', rePlus (.cls emailDomChar),
    reChar '.', reRepAtLeast (.cls Char.isAlpha) 2]

/-- `[-.\s]`, the separator class of the phone pattern. -/
def phoneSep (c : Char) : Bool := c = '-' || c = '.' || isWsChar c

/-- `patterns.phone.regex` (sanitizer.js line 24):
`(\+?1[-.\s]?)?(\(?\d{3}\)?[-.\s]?)?\d{3}[-.\s]?\d{4}`. -/
def phoneRegex : RE :=
  reCat [
    .opt (reCat [.opt (reChar '+'), reChar '1', .opt (.cls phoneSep)]),
    .opt (reCat [.opt (reChar '('), reRepExact clsDigit 3, .opt (reChar ')'),
      .opt (.cls phoneSep)]),
    reRepExact clsDigit 3, .opt (.cls phoneSep), reRepExact clsDigit 4]

/-- `patterns.accountNumber.regex` (sanitizer.js line 28):
`\b\d{8,16}\b`. -/
def accountRegex : RE := reCat [.wb, reRepRange clsDigit 8 16, .wb]

/-- `[-\s]`, the separator class of the card and SSN patterns. -/
def dashWs (c : Char) : Bool := c = '-' || isWsChar c

/-- `patterns.creditCard.regex` (sanitizer.js line 32):
`\b(?:\d{4}[-\s]?){3}\d{4}\b`. -/
def creditCardRegex : RE :=
  reCat [.wb, reRepExact (reCat [reRepExact clsDigit 4, .opt (.cls dashWs)]) 3,
    reRepExact clsDigit 4, .wb]

/-- `patterns.ssn.regex` (sanitizer.js line 36):
`\b\d{3}[-\s]?\d{2}[-\s]?\d{4}\b`. -/
def ssnRegex : RE :=
  reCat [.wb, reRepExact clsDigit 3, .opt (.cls dashWs), reRepExact clsDigit 2,
    .opt (.cls dashWs), reRepExact clsDigit 4, .wb]

/-- `patterns.ipAddress.regex` (sanitizer.js line 40):
`\b(?:\d{1,3}\.){3}\d{1,3}\b`. -/
def ipRegex : RE :=
  reCat [.wb, reRepExact (RE.cat (reRepRange clsDigit 1 3) (reChar '.')) 3,
    reRepRange clsDigit 1 3, .wb]

/-- `Sanitizer.sanitizeText` (sanitizer.js lines 47-91) with the
default options: all six built-in rules enabled, in source order
(email, phone, account number, credit card, SSN, IP address), and no
custom patterns. -/
def sanitizeText (text : String) : String :=
  if text.isEmpty then text
  else
    let s1 := replaceAllStr emailRegex "[EMAIL]" text
    let s2 := replaceAllStr phoneRegex "[PHONE]" s1
    let s3 := replaceAllStr accountRegex "[ACCOUNT]" s2
    let s4 := replaceAllStr creditCardRegex "[CARD]" s3
    let s5 := replaceAllStr ssnRegex "[SSN]" s4
    replaceAllStr ipRegex "[IP]" s5

/-! ### JSON (platform `JSON.parse`, modelled)

A recursive-descent parser for the JSON fragment the decision parser
can meet: objects (later duplicate keys overwrite earlier ones, as in
`JSON.parse`), arrays, strings with the standard escapes, integer
numbers, `true`/`false`/`null`.  Fractional/exponent numbers and
`\u`-escapes denoting surrogates are outside the model (they parse to
`none`); no claim depends on them. -/

/-- A JSON value. -/
inductive Json where
  | null
  | jbool (b : Bool)
  | jnum (n : Int)
  | jstr (s : String)
  | jarr (elems : List Json)
  | jobj (fields : List (String × Json))
deriving Repr

/-- JSON insignificant whitespace. -/
def jsonWsChar (c : Char) : Bool := c = ' ' || c = '\t' || c = '\n' || c = '\r'

/-- Skip insignificant whitespace. -/
def skipWs (cs : List Char) : List Char := cs.dropWhile jsonWsChar

/-- Object member write with `JSON.parse` duplicate-key semantics
(later assignment overwrites). -/
def jsonObjSet : List (String × Json) → String → Json → List (String × Json)
  | [], k, v => [(k, v)]
  | (k', v') :: rest, k, v =>
      if k' = k then (k, v) :: rest else (k', v') :: jsonObjSet rest k v

/-- The value of a hexadecimal digit. -/
def hexVal (c : Char) : Option Nat :=
  if '0' ≤ c ∧ c ≤ '9' then some (c.toNat - '0'.toNat)
  else if 'a' ≤ c ∧ c ≤ 'f' then some (c.toNat - 'a'.toNat + 10)
  else if 'A' ≤ c ∧ c ≤ 'F' then some (c.toNat - 'A'.toNat + 10)
  else none

/-- Parse the body of a JSON string after the opening quote; returns
the decoded characters and the input after the closing quote. -/
def parseJStringGo : Nat → List Char → Option (List Char × List Char)
  | 0, _ => none
  | _, [] => none
  | fuel + 1, c :: rest =>
      if c = '"' then some ([], rest)
      else if c = '\\' then
        match rest with
        | [] => none
        | e :: rest' =>
            let dec : Option (Char × List Char) :=
              if e = '"' then some ('"', rest')
              else if e = '\\' then some ('\\', rest')
              else if e = '/' then some ('/', rest')
              else if e = 'b' then some ('\x08', rest')
              else if e = 'f' then some ('\x0c', rest')
              else if e = 'n' then some ('\n', rest')
              else if e = 'r' then some ('\r', rest')
              else if e = 't' then some ('\t', rest')
              else if e = 'u' then
                match rest' with
                | h1 :: h2 :: h3 :: h4 :: rest'' => do
                    let v1 ← hexVal h1
                    let v2 ← hexVal h2
                    let v3 ← hexVal h3
                    let v4 ← hexVal h4
                    let n := ((v1 * 16 + v2) * 16 + v3) * 16 + v4
                    if h : n.isValidChar then some (Char.ofNatAux n h, rest'')
                    else none
                | _ => none
              else none
            match dec with
            | some (ch, rest'') =>
                (parseJStringGo fuel rest'').map fun (cs, rem) => (ch :: cs, rem)
            | none => none
      else if c.toNat < 32 then none
      else (parseJStringGo fuel rest).map fun (cs, rem) => (c :: cs, rem)

/-- Parse a JSON integer literal (sign, no leading zeros). -/
def parseJNumber (cs : List Char) : Option (Int × List Char) :=
  let (neg, cs') := match cs with
    | '-' :: t => (true, t)
    | _ => (false, cs)
  match cs' with
  | [] => none
  | d :: _ =>
      if !d.isDigit then none
      else
        let digits := cs'.takeWhile Char.isDigit
        let rest := cs'.dropWhile Char.isDigit
        if digits.length > 1 ∧ d = '0' then none
        else
          match rest with
          | '.' :: _ => none
          | 'e' :: _ => none
          | 'E' :: _ => none
          | _ =>
              let n : Nat := digits.foldl (fun acc c => acc * 10 + (c.toNat - '0'.toNat)) 0
              some (if neg then -(n : Int) else (n : Int), rest)

mutual

/-- Parse a JSON value; returns the value and the unconsumed input. -/
def parseJValue : Nat → List Char → Option (Json × List Char)
  | 0, _ => none
  | fuel + 1, cs =>
      match skipWs cs with
      | [] => none
      | c :: rest =>
          if c = '{' then parseJMembers fuel rest [] true
          else if c = '[' then parseJElems fuel rest [] true
          else if c = '"' then
            (parseJStringGo fuel rest).map fun (body, rem) => (.jstr (String.mk body), rem)
          else if c = 't' then
            match rest with
            | 'r' :: 'u' :: 'e' :: rem => some (.jbool true, rem)
            | _ => none
          else if c = 'f' then
            match rest with
            | 'a' :: 'l' :: 's' :: 'e' :: rem => some (.jbool false, rem)
            | _ => none
          else if c = 'n' then
            match rest with
            | 'u' :: 'l' :: 'l' :: rem => some (.null, rem)
            | _ => none
          else
            (parseJNumber (c :: rest)).map fun (n, rem) => (.jnum n, rem)

/-- Parse object members after `{`; `first` is true before the first
member (so `}` may close an empty object). -/
def parseJMembers (fuel : Nat) (cs : List Char) (acc : List (String × Json))
    (first : Bool) : Option (Json × List Char) :=
  match fuel with
  | 0 => none
  | fuel + 1 =>
      match skipWs cs with
      | [] => none
      | c :: rest =>
          if c = '}' ∧ first then some (.jobj acc, rest)
          else
            match skipWs (c :: rest) with
            | '"' :: body => do
                let (key, afterKey) ← parseJStringGo fuel body
                match skipWs afterKey with
                | ':' :: afterColon => do
                    let (v, afterVal) ← parseJValue fuel afterColon
                    let acc' := jsonObjSet acc (String.mk key) v
                    match skipWs afterVal with
                    | ',' :: afterComma => parseJMembersMore fuel afterComma acc'
                    | '}' :: rem => some (.jobj acc', rem)
                    | _ => none
                | _ => none
            | _ => none

/-- Members after a comma (a member is now mandatory). -/
def parseJMembersMore (fuel : Nat) (cs : List Char) (acc : List (String × Json)) :
    Option (Json × List Char) :=
  match fuel with
  | 0 => none
  | fuel + 1 => parseJMembers fuel cs acc false

/-- Parse array elements after `[`. -/
def parseJElems (fuel : Nat) (cs : List Char) (acc : List Json) (first : Bool) :
    Option (Json × List Char) :=
  match fuel with
  | 0 => none
  | fuel + 1 =>
      match skipWs cs with
      | [] => none
      | c :: rest =>
          if c = ']' ∧ first then some (.jarr acc.reverse, rest)
          else do
            let (v, afterVal) ← parseJValue fuel (c :: rest)
            match skipWs afterVal with
            | ',' :: afterComma => parseJElemsMore fuel afterComma (v :: acc)
            | ']' :: rem => some (.jarr (v :: acc).reverse, rem)
            | _ => none

/-- Elements after a comma (an element is now mandatory). -/
def parseJElemsMore (fuel : Nat) (cs : List Char) (acc : List Json) :
    Option (Json × List Char) :=
  match fuel with
  | 0 => none
  | fuel + 1 => parseJElems fuel cs acc false

end

/-- `JSON.parse`: a single value followed only by whitespace. -/
def jsonParse (cs : List Char) : Option Json :=
  match parseJValue (cs.length + 2) cs with
  | some (v, rest) => if skipWs rest = [] then some v else none
  | none => none

/-! ### AI response parsing (src/services/ai-service.js) -/

/-- JavaScript truthiness of a JSON value (`NaN` cannot arise from
`JSON.parse` of an integer literal). -/
def jsonTruthy : Json → Bool
  | .null => false
  | .jbool b => b
  | .jnum n => n != 0
  | .jstr s => !s.isEmpty
  | .jarr _ => true
  | .jobj _ => true

/-- Object field read. -/
def jsonObjLookup : List (String × Json) → String → Option Json
  | [], _ => none
  | (k', v) :: rest, k => if k' = k then some v else jsonObjLookup rest k

/-- `parsed.name || dflt`: property access (undefined off objects or
for an absent key) followed by JavaScript `||`. -/
def getFieldOr (v : Json) (name : String) (dflt : Json) : Json :=
  match v with
  | .jobj fields =>
      match jsonObjLookup fields name with
      | some x => if jsonTruthy x then x else dflt
      | none => dflt
  | _ => dflt

/-- The regex `/\{[\s\S]*?\}/` of `parseResponse`: leftmost match, lazy
body. -/
def braceLazyRe : RE := reCat [reChar '{', .rep0l (.cls fun _ => true), reChar '}']

/-- `response.match(/\{[\s\S]*?\}/)`: the first matched substring, if
any. -/
def braceMatch (s : List Char) : Option (List Char) :=
  match findFrom s braceLazyRe 0 with
  | some (a, b) => some ((s.drop a).take (b - a))
  | none => none

/-- The `{groupName, color}` decision structure built by
`parseResponse`; field values are the raw JSON values JavaScript would
put there. -/
structure Decision where
  groupName : Json
  color : Json
deriving Repr

/-- The fallback decision (`ai-service.js` line 89). -/
def defaultDecision : Decision := ⟨.jstr "Misc", .jstr "grey"⟩

/-- `AIService.parseResponse` (ai-service.js lines 73-90): extract the
first `/\{[\s\S]*?\}/` match, `JSON.parse` it, take `groupName` and
`color` with `|| 'Misc'` / `|| 'grey'` fallbacks; any parse failure or
absent match yields the default decision, never an error. -/
def parseResponse (response : String) : Decision :=
  match braceMatch response.data with
  | some sub =>
      match jsonParse sub with
      | some parsed =>
          ⟨getFieldOr parsed "groupName" (.jstr "Misc"),
           getFieldOr parsed "color" (.jstr "grey")⟩
      | none => defaultDecision
  | none => defaultDecision

end Tabber

namespace Tabber

/-- AUX-C9: every entry of the palette list is a palette member. -/
theorem groupColors_getD_mem (i : Fin 9) : GROUP_COLORS.getD i.val "" ∈ GROUP_COLORS := by
  fin_cases i <;> simp [GROUP_COLORS]

/-- AUX-C9: no palette member is the empty string. -/
theorem groupColors_ne_empty : ∀ x ∈ GROUP_COLORS, x ≠ "" := by decide

/-- C9: `validateColor` always returns a palette member (so the final
decision's color is never outside the palette and never empty), for
every input color string — unrecognized, differently-cased or missing —
and when the lowercased input is a palette member it is returned
itself. -/
theorem validateColor_palette :
    (∀ (c : Option String) (r : Fin 9),
        validateColor c r ∈ GROUP_COLORS ∧ validateColor c r ≠ "") ∧
    (∀ (s : String) (r : Fin 9), jsToLowerCase s ∈ GROUP_COLORS →
        validateColor (some s) r = jsToLowerCase s) := by
  constructor
  · intro c r
    have hne : ∀ x ∈ GROUP_COLORS, x ≠ "" := groupColors_ne_empty
    have hd := groupColors_getD_mem r
    match c with
    | none => exact ⟨hd, hne _ hd⟩
    | some s =>
        have he : validateColor (some s) r =
            if GROUP_COLORS.contains (jsToLowerCase s) then jsToLowerCase s
            else GROUP_COLORS.getD r.val "" := rfl
        by_cases h : GROUP_COLORS.contains (jsToLowerCase s)
        · have hm : jsToLowerCase s ∈ GROUP_COLORS := by simpa using h
          rw [he, if_pos h]
          exact ⟨hm, hne _ hm⟩
        · rw [he, if_neg h]
          exact ⟨hd, hne _ hd⟩
  · intro s r h
    have h' : GROUP_COLORS.contains (jsToLowerCase s) := by simpa using h
    have he : validateColor (some s) r =
        if GROUP_COLORS.contains (jsToLowerCase s) then jsToLowerCase s
        else GROUP_COLORS.getD r.val "" := rfl
    rw [he, if_pos h']

/-- C9 witness: an uppercased palette member is returned lowercased. -/
theorem validateColor_palette_witness :
    validateColor (some "BLUE") ⟨0, by decide⟩ = jsToLowerCase "BLUE" :=
  validateColor_palette.2 "BLUE" ⟨0, by decide⟩ (by decide)

/-! ### Base64 lemmas -/

/-- AUX: decoding a base64 digit inverts encoding, for 6-bit values. -/
theorem b64Index_b64Char : ∀ n, n < 64 → b64Index (b64Char n) = some n := by decide

/-- AUX: the base64 digit of a 6-bit value is never the padding
character. -/
theorem b64Char_ne_eq : ∀ n, n < 64 → b64Char n ≠ '=' := by decide

/-- AUX: base64 digits always belong to the alphabet. -/
theorem isB64AlphaChar_b64Char (n : Nat) : isB64AlphaChar (b64Char n) = true := by
  by_cases h : n < 64
  · revert n h; decide
  · have : b64Char n = 'A' := by
      unfold b64Char
      have : b64Alphabet.length = 64 := by decide
      rw [List.getD_eq_default]
      omega
    rw [this]; decide

/-- AUX: base64 decode inverts encode on byte lists. -/
theorem b64_roundtrip :
    ∀ bs : List Nat, (∀ b ∈ bs, b < 256) →
      b64DecodeBytes (b64EncodeBytes bs) = some bs := by
  intro bs
  induction bs using b64EncodeBytes.induct with
  | case1 => intro _; rfl
  | case2 a =>
      intro h
      have ha : a < 256 := h a (by simp)
      have h0 : a / 4 < 64 := by omega
      have h1 : a % 4 * 16 < 64 := by omega
      simp only [b64EncodeBytes, b64DecodeBytes, b64Index_b64Char _ h0,
        b64Index_b64Char _ h1, Option.bind_eq_bind, Option.some_bind]
      simp only [if_pos rfl, and_self, if_true]
      simp only [Option.some.injEq, List.cons.injEq, and_true]
      omega
  | case3 a b =>
      intro h
      have ha : a < 256 := h a (by simp)
      have hb : b < 256 := h b (by simp)
      have h0 : a / 4 < 64 := by omega
      have h1 : a % 4 * 16 + b / 16 < 64 := by omega
      have h2 : b % 16 * 4 < 64 := by omega
      simp only [b64EncodeBytes, b64DecodeBytes, b64Index_b64Char _ h0,
        b64Index_b64Char _ h1, b64Index_b64Char _ h2, Option.bind_eq_bind,
        Option.some_bind]
      rw [if_neg (b64Char_ne_eq _ h2)]
      simp only [if_pos rfl, and_self, if_true]
      simp only [Option.some.injEq, List.cons.injEq, and_true]
      omega
  | case4 a b c rest ih =>
      intro h
      have ha : a < 256 := h a (by simp)
      have hb : b < 256 := h b (by simp)
      have hc : c < 256 := h c (by simp)
      have hrest : ∀ x ∈ rest, x < 256 := fun x hx => h x (by simp [hx])
      have h0 : a / 4 < 64 := by omega
      have h1 : a % 4 * 16 + b / 16 < 64 := by omega
      have h2 : b % 16 * 4 + c / 64 < 64 := by omega
      have h3 : c % 64 < 64 := by omega
      simp only [b64EncodeBytes, b64DecodeBytes, b64Index_b64Char _ h0,
        b64Index_b64Char _ h1, b64Index_b64Char _ h2, b64Index_b64Char _ h3,
        Option.bind_eq_bind, Option.some_bind]
      rw [if_neg (b64Char_ne_eq _ h2), if_neg (b64Char_ne_eq _ h3)]
      rw [ih hrest]
      simp only [Option.some_bind, Option.some.injEq, List.cons.injEq, and_true]
      omega

/-- AUX: length of the base64 encoding. -/
theorem b64EncodeBytes_length :
    ∀ bs : List Nat, (b64EncodeBytes bs).length = 4 * ((bs.length + 2) / 3) := by
  intro bs
  induction bs using b64EncodeBytes.induct with
  | case1 => rfl
  | case2 a => simp [b64EncodeBytes]
  | case3 a b => simp [b64EncodeBytes]
  | case4 a b c rest ih =>
      simp only [b64EncodeBytes, List.length_cons, ih]
      omega

/-- AUX: a base64 encoding is alphabet characters followed by
padding, with a nonempty alphabet part when the input is nonempty. -/
theorem b64EncodeBytes_shape :
    ∀ bs : List Nat, ∃ al k, b64EncodeBytes bs = al ++ List.replicate k '=' ∧
      (∀ c ∈ al, isB64AlphaChar c = true) ∧ (bs ≠ [] → al ≠ []) := by
  intro bs
  induction bs using b64EncodeBytes.induct with
  | case1 => exact ⟨[], 0, rfl, by simp, by simp⟩
  | case2 a =>
      refine ⟨[b64Char (a / 4), b64Char (a % 4 * 16)], 2, rfl, ?_, by simp⟩
      intro c hc
      simp only [List.mem_cons, List.not_mem_nil, or_false] at hc
      rcases hc with rfl | rfl <;> exact isB64AlphaChar_b64Char _
  | case3 a b =>
      refine ⟨[b64Char (a / 4), b64Char (a % 4 * 16 + b / 16), b64Char (b % 16 * 4)],
        1, rfl, ?_, by simp⟩
      intro c hc
      simp only [List.mem_cons, List.not_mem_nil, or_false] at hc
      rcases hc with rfl | rfl | rfl <;> exact isB64AlphaChar_b64Char _
  | case4 a b c rest ih =>
      obtain ⟨al, k, he, hal, -⟩ := ih
      refine ⟨b64Char (a / 4) :: b64Char (a % 4 * 16 + b / 16) ::
        b64Char (b % 16 * 4 + c / 64) :: b64Char (c % 64) :: al, k, ?_, ?_, by simp⟩
      · simp only [b64EncodeBytes, he, List.cons_append]
      · intro x hx
        simp only [List.mem_cons] at hx
        rcases hx with rfl | rfl | rfl | rfl | hx
        · exact isB64AlphaChar_b64Char _
        · exact isB64AlphaChar_b64Char _
        · exact isB64AlphaChar_b64Char _
        · exact isB64AlphaChar_b64Char _
        · exact hal x hx

/-- AUX: `takeWhile` passes over a prefix on which the predicate
holds. -/
theorem takeWhile_append_all {α : Type} (p : α → Bool) :
    ∀ (al r : List α), (∀ c ∈ al, p c = true) →
      (al ++ r).takeWhile p = al ++ r.takeWhile p := by
  intro al r h
  induction al with
  | nil => rfl
  | cons x rest ih =>
      have hx : p x = true := h x (by simp)
      simp only [List.cons_append, List.takeWhile_cons, hx, if_true]
      rw [ih fun c hc => h c (by simp [hc])]

/-- AUX: no padding character passes the alphabet test. -/
theorem takeWhile_replicate_pad (k : Nat) :
    (List.replicate k '=').takeWhile isB64AlphaChar = [] := by
  cases k with
  | zero => rfl
  | succ n =>
      have h : isB64AlphaChar '=' = false := by decide
      simp [List.replicate, List.takeWhile_cons, h]

/-- AUX: the `/^[A-Za-z0-9+/]+=*$/` test accepts every nonempty base64
encoding. -/
theorem base64RegexTest_encode (bs : List Nat) (h : bs ≠ []) :
    base64RegexTest (b64EncodeBytes bs) = true := by
  obtain ⟨al, k, he, hal, hne⟩ := b64EncodeBytes_shape bs
  have halne := hne h
  rw [he]
  unfold base64RegexTest
  rw [takeWhile_append_all _ al _ hal, takeWhile_replicate_pad, List.append_nil]
  have h1 : al.isEmpty = false := by
    cases al with
    | nil => exact absurd rfl halne
    | cons x rest => rfl
  rw [h1, List.drop_left]
  simp only [Bool.not_false, Bool.true_and]
  simp only [List.all_eq_true, List.mem_replicate]
  intro x hx
  simp [hx.2]

/-- AUX: every character of a base64 encoding is an alphabet character
or padding. -/
theorem b64EncodeBytes_chars (bs : List Nat) (c : Char)
    (hc : c ∈ b64EncodeBytes bs) : isB64AlphaChar c = true ∨ c = '=' := by
  obtain ⟨al, k, he, hal, -⟩ := b64EncodeBytes_shape bs
  rw [he] at hc
  rcases List.mem_append.mp hc with h | h
  · exact Or.inl (hal c h)
  · exact Or.inr (List.mem_replicate.mp h).2

/-- AUX-C10: `isEncrypted` accepts the base64 encoding of any byte
sequence of at least 44 bytes (salt + IV + one block + tag). -/
theorem isEncrypted_encode (bs : List Nat) (hlen : 44 ≤ bs.length) :
    isEncrypted (arrayBufferToBase64 bs) = true := by
  have hdata : (arrayBufferToBase64 bs).data = b64EncodeBytes bs := rfl
  have hlen4 : (b64EncodeBytes bs).length = 4 * ((bs.length + 2) / 3) :=
    b64EncodeBytes_length bs
  have hge : 60 ≤ (b64EncodeBytes bs).length := by omega
  have hbs : bs ≠ [] := by
    intro h
    rw [h] at hlen
    simp at hlen
  unfold isEncrypted
  rw [hdata]
  have h1 : (b64EncodeBytes bs).isEmpty = false := by
    cases hE : b64EncodeBytes bs with
    | nil => rw [hE] at hge; simp at hge
    | cons x rest => rfl
  rw [h1]
  have h2 : (b64EncodeBytes bs).take 3 ≠ ['s', 'k', '-'] := by
    intro hEq
    have hmem : '-' ∈ (b64EncodeBytes bs).take 3 := by rw [hEq]; simp
    have : '-' ∈ b64EncodeBytes bs := List.take_subset _ _ hmem
    rcases b64EncodeBytes_chars bs '-' this with h | h
    · exact absurd h (by decide)
    · exact absurd h (by decide)
  rw [if_neg h2]
  have h3 : (3 * (b64EncodeBytes bs).length ≥ 176) = True := by
    simp only [ge_iff_le, eq_iff_iff, iff_true]
    omega
  simp only [h3, decide_True, Bool.true_and]
  exact base64RegexTest_encode bs hbs

/-! ### Text encoding lemmas -/

/-- AUX: code points are below `0x110000`. -/
theorem charToNat_lt (c : Char) : c.toNat < 1114112 := by
  have hv : Nat.isValidChar c.toNat := c.valid
  rcases hv with h | ⟨-, h2⟩
  · omega
  · exact h2

/-- AUX: decoding inverts the modelled text encoding. -/
theorem textDecodeChars_encode :
    ∀ cs : List Char,
      textDecodeChars (cs.flatMap fun c =>
        [c.toNat / 65536, c.toNat / 256 % 256, c.toNat % 256]) = some cs := by
  intro cs
  induction cs with
  | nil => rfl
  | cons c rest ih =>
      show textDecodeChars (c.toNat / 65536 :: c.toNat / 256 % 256 :: c.toNat % 256 ::
        rest.flatMap _) = _
      unfold textDecodeChars
      have hn : c.toNat / 65536 * 65536 + c.toNat / 256 % 256 * 256 + c.toNat % 256 =
          c.toNat := by omega
      rw [hn]
      have hv : Nat.isValidChar c.toNat := c.valid
      rw [dif_pos hv]
      have hc : Char.ofNatAux c.toNat hv = c := by
        have h1 : Char.ofNat c.toNat = Char.ofNatAux c.toNat hv := dif_pos hv
        rw [← h1, Char.ofNat_toNat]
      rw [ih, hc]
      rfl

/-- AUX: string-level text round-trip. -/
theorem textDecode_textEncode (s : String) : textDecode (textEncode s) = some s := by
  unfold textDecode textEncode
  rw [textDecodeChars_encode s.data]
  rfl

/-- AUX: the modelled text encoding emits bytes. -/
theorem textEncode_lt (s : String) : ∀ b ∈ textEncode s, b < 256 := by
  intro b hb
  unfold textEncode at hb
  rw [List.mem_flatMap] at hb
  obtain ⟨c, -, hmem⟩ := hb
  have := charToNat_lt c
  simp only [List.mem_cons, List.not_mem_nil, or_false] at hmem
  rcases hmem with rfl | rfl | rfl <;> omega

/-! ### Cipher lemmas -/

/-- AUX: the keystream XOR is an involution. -/
theorem xorStream_xorStream (key : Nat) (iv : List Nat) :
    ∀ (bs : List Nat) (i : Nat), xorStream key iv i (xorStream key iv i bs) = bs := by
  intro bs
  induction bs with
  | nil => intro i; rfl
  | cons b rest ih =>
      intro i
      simp only [xorStream, List.cons.injEq]
      exact ⟨by rw [Nat.xor_assoc, Nat.xor_self, Nat.xor_zero], ih (i + 1)⟩

/-- AUX: the keystream XOR preserves length. -/
theorem xorStream_length (key : Nat) (iv : List Nat) :
    ∀ (bs : List Nat) (i : Nat), (xorStream key iv i bs).length = bs.length := by
  intro bs
  induction bs with
  | nil => intro i; rfl
  | cons b rest ih => intro i; simp [xorStream, ih]

/-- AUX: the keystream XOR emits bytes. -/
theorem xorStream_lt (key : Nat) (iv : List Nat) :
    ∀ (bs : List Nat), (∀ b ∈ bs, b < 256) →
      ∀ (i : Nat), ∀ b ∈ xorStream key iv i bs, b < 256 := by
  intro bs hbs
  induction bs with
  | nil => intro i b hb; simp [xorStream] at hb
  | cons x rest ih =>
      intro i b hb
      simp only [xorStream, List.mem_cons] at hb
      rcases hb with rfl | hb
      · have hx : x < 256 := hbs x (by simp)
        have hk : keystreamByte key iv i < 256 := Nat.mod_lt _ (by omega)
        have h8 : (256 : Nat) = 2 ^ 8 := rfl
        rw [h8] at hx hk ⊢
        exact Nat.xor_lt_two_pow hx hk
      · exact ih (fun y hy => hbs y (by simp [hy])) (i + 1) b hb

/-- AUX: the authentication tag is sixteen bytes. -/
theorem gcmTag_length (key : Nat) (iv data : List Nat) :
    (gcmTag key iv data).length = 16 := by
  simp [gcmTag]

/-- AUX: the tag bytes are bytes. -/
theorem gcmTag_lt (key : Nat) (iv data : List Nat) :
    ∀ b ∈ gcmTag key iv data, b < 256 := by
  intro b hb
  unfold gcmTag at hb
  rw [List.mem_map] at hb
  obtain ⟨j, -, rfl⟩ := hb
  exact Nat.mod_lt _ (by omega)

/-- AUX: the modelled AES-GCM decryption inverts encryption under the
same key and IV. -/
theorem subtleDecrypt_subtleEncrypt (key : Nat) (iv data : List Nat) :
    subtleDecrypt key iv (subtleEncrypt key iv data) = some data := by
  have hx := xorStream_length key iv data 0
  have ht := gcmTag_length key iv data
  have hlen : (subtleEncrypt key iv data).length = data.length + 16 := by
    unfold subtleEncrypt
    rw [List.length_append, hx, ht]
  unfold subtleDecrypt
  rw [hlen, if_neg (by omega), Nat.add_sub_cancel]
  unfold subtleEncrypt
  rw [← hx, List.take_left, List.drop_left, xorStream_xorStream]
  rw [if_pos rfl]

/-- AUX: the ciphertext of the modelled cipher consists of bytes and
has the plaintext length plus sixteen. -/
theorem subtleEncrypt_bytes (key : Nat) (iv data : List Nat)
    (h : ∀ b ∈ data, b < 256) :
    (∀ b ∈ subtleEncrypt key iv data, b < 256) ∧
      (subtleEncrypt key iv data).length = data.length + 16 := by
  constructor
  · intro b hb
    unfold subtleEncrypt at hb
    rcases List.mem_append.mp hb with h' | h'
    · exact xorStream_lt key iv data h 0 b h'
    · exact gcmTag_lt key iv data b h'
  · unfold subtleEncrypt
    rw [List.length_append, xorStream_length, gcmTag_length]

/-- AUX: the modelled text encoding emits three bytes per character. -/
theorem textEncode_length (s : String) : (textEncode s).length = 3 * s.data.length := by
  unfold textEncode
  induction s.data with
  | nil => rfl
  | cons c rest ih => simp only [List.flatMap_cons, List.length_append, ih,
      List.length_cons, List.length_nil]; omega

/-- AUX: the envelope of an encryption call, written out. -/
theorem encrypt_eq (P : String) (pw : Option String) (salt iv : List Nat) :
    encrypt P pw salt iv = arrayBufferToBase64 (salt ++ iv ++
      subtleEncrypt (deriveKey (resolvePassword pw) salt) iv (textEncode P)) := rfl

/-- AUX: byte bounds for the envelope byte sequence. -/
theorem envelope_bytes_lt (P : String) (pw : Option String) (salt iv : List Nat)
    (hsb : ∀ b ∈ salt, b < 256) (hib : ∀ b ∈ iv, b < 256) :
    ∀ b ∈ salt ++ iv ++ subtleEncrypt (deriveKey (resolvePassword pw) salt) iv
      (textEncode P), b < 256 := by
  intro b hb
  rcases List.mem_append.mp hb with h | h
  · rcases List.mem_append.mp h with h' | h'
    · exact hsb b h'
    · exact hib b h'
  · exact (subtleEncrypt_bytes _ _ _ (textEncode_lt P)).1 b h

/-- AUX: length of the envelope byte sequence. -/
theorem envelope_bytes_length (P : String) (pw : Option String) (salt iv : List Nat)
    (hs : salt.length = 16) (hi : iv.length = 12) :
    (salt ++ iv ++ subtleEncrypt (deriveKey (resolvePassword pw) salt) iv
      (textEncode P)).length = 44 + 3 * P.data.length := by
  rw [List.length_append, List.length_append, hs, hi,
    (subtleEncrypt_bytes _ _ _ (textEncode_lt P)).2, textEncode_length]
  omega

/-- AUX: `decrypt` after a successful base64 decode. -/
theorem decrypt_of_b64 (s : String) (pw : Option String) (X : List Nat)
    (h : base64ToArrayBuffer s = some X) :
    decrypt s pw =
      match subtleDecrypt (deriveKey (resolvePassword pw) (X.take 16))
          ((X.drop 16).take 12) (X.drop 28) with
      | none => none
      | some d => textDecode d := by
  unfold decrypt
  rw [h]

/-- AUX: slicing the envelope byte sequence recovers its parts. -/
theorem envelope_slices {α : Type} (salt iv ct : List α)
    (hs : salt.length = 16) (hi : iv.length = 12) :
    (salt ++ iv ++ ct).take 16 = salt ∧
    ((salt ++ iv ++ ct).drop 16).take 12 = iv ∧
    (salt ++ iv ++ ct).drop 28 = ct := by
  rw [List.append_assoc]
  have h1 : (salt ++ (iv ++ ct)).take 16 = salt := by
    rw [← hs, List.take_left]
  have h2 : (salt ++ (iv ++ ct)).drop 16 = iv ++ ct := by
    rw [← hs, List.drop_left]
  have h3 : (iv ++ ct).take 12 = iv := by
    rw [← hi, List.take_left]
  have h4 : (iv ++ ct).drop 12 = ct := by
    rw [← hi, List.drop_left]
  refine ⟨h1, by rw [h2, h3], ?_⟩
  have h28 : (28 : Nat) = 16 + 12 := rfl
  rw [h28, ← List.drop_drop, h2, h4]

/-- C2: for every plaintext string, every password (`none` is the
default device-derived password) and every freshly drawn 16-byte salt
and 12-byte IV, `decrypt (encrypt P pw) pw` returns exactly `P`: the
round trip through the base64 `salt ‖ iv ‖ ciphertext` envelope is
exact. -/
theorem decrypt_encrypt_roundtrip (P : String) (pw : Option String)
    (salt iv : List Nat) (hs : salt.length = 16) (hi : iv.length = 12)
    (hsb : ∀ b ∈ salt, b < 256) (hib : ∀ b ∈ iv, b < 256) :
    decrypt (encrypt P pw salt iv) pw = some P := by
  have hall := envelope_bytes_lt P pw salt iv hsb hib
  have hb64 : base64ToArrayBuffer (encrypt P pw salt iv) = some (salt ++ iv ++
      subtleEncrypt (deriveKey (resolvePassword pw) salt) iv (textEncode P)) := by
    rw [encrypt_eq]
    exact b64_roundtrip _ hall
  rw [decrypt_of_b64 _ _ _ hb64]
  obtain ⟨h1, h2, h3⟩ := envelope_slices salt iv _ hs hi
  rw [h1, h2, h3, subtleDecrypt_subtleEncrypt]
  exact textDecode_textEncode P

/-- C2 witness: the round trip at a concrete plaintext, password and
randomness. -/
theorem decrypt_encrypt_roundtrip_witness :
    decrypt (encrypt "sk-test-key" (some "pw") (List.range 16) (List.range 12))
      (some "pw") = some "sk-test-key" :=
  decrypt_encrypt_roundtrip "sk-test-key" (some "pw") (List.range 16) (List.range 12)
    (by decide) (by decide) (by decide) (by decide)

/-- C4: two encryption calls on the same plaintext and password whose
fresh randomness drew different salt/IV pairs produce different
envelopes, and both envelopes decrypt (under that password) to the
original plaintext. -/
theorem encrypt_nondeterministic (P : String) (pw : Option String)
    (salt1 iv1 salt2 iv2 : List Nat)
    (hs1 : salt1.length = 16) (hi1 : iv1.length = 12)
    (hs2 : salt2.length = 16) (hi2 : iv2.length = 12)
    (hb1 : ∀ b ∈ salt1, b < 256) (hb2 : ∀ b ∈ iv1, b < 256)
    (hb3 : ∀ b ∈ salt2, b < 256) (hb4 : ∀ b ∈ iv2, b < 256)
    (hfresh : salt1 ≠ salt2 ∨ iv1 ≠ iv2) :
    encrypt P pw salt1 iv1 ≠ encrypt P pw salt2 iv2 ∧
    decrypt (encrypt P pw salt1 iv1) pw = some P ∧
    decrypt (encrypt P pw salt2 iv2) pw = some P := by
  refine ⟨?_, decrypt_encrypt_roundtrip P pw salt1 iv1 hs1 hi1 hb1 hb2,
    decrypt_encrypt_roundtrip P pw salt2 iv2 hs2 hi2 hb3 hb4⟩
  intro heq
  have h1 := b64_roundtrip _ (envelope_bytes_lt P pw salt1 iv1 hb1 hb2)
  have h2 := b64_roundtrip _ (envelope_bytes_lt P pw salt2 iv2 hb3 hb4)
  have heq2 : base64ToArrayBuffer (encrypt P pw salt1 iv1) =
      base64ToArrayBuffer (encrypt P pw salt2 iv2) := by rw [heq]
  rw [encrypt_eq P pw salt1 iv1, encrypt_eq P pw salt2 iv2] at heq2
  unfold arrayBufferToBase64 base64ToArrayBuffer at heq2
  rw [show (String.mk (b64EncodeBytes (salt1 ++ iv1 ++
      subtleEncrypt (deriveKey (resolvePassword pw) salt1) iv1 (textEncode P)))).data =
    b64EncodeBytes (salt1 ++ iv1 ++
      subtleEncrypt (deriveKey (resolvePassword pw) salt1) iv1 (textEncode P)) from rfl,
    show (String.mk (b64EncodeBytes (salt2 ++ iv2 ++
      subtleEncrypt (deriveKey (resolvePassword pw) salt2) iv2 (textEncode P)))).data =
    b64EncodeBytes (salt2 ++ iv2 ++
      subtleEncrypt (deriveKey (resolvePassword pw) salt2) iv2 (textEncode P)) from rfl,
    h1, h2] at heq2
  have hbytes := Option.some.inj heq2
  rw [List.append_assoc, List.append_assoc] at hbytes
  have hsalt := List.append_inj hbytes (by rw [hs1, hs2])
  have hiv := List.append_inj hsalt.2 (by rw [hi1, hi2])
  rcases hfresh with h | h
  · exact h hsalt.1
  · exact h hiv.1

/-- C4 witness: two concrete encryptions with different salts. -/
theorem encrypt_nondeterministic_witness :
    encrypt "k" none (List.range 16) (List.range 12) ≠
      encrypt "k" none (List.replicate 16 7) (List.range 12) :=
  (encrypt_nondeterministic "k" none (List.range 16) (List.range 12)
    (List.replicate 16 7) (List.range 12) (by decide) (by decide) (by decide)
    (by decide) (by decide) (by decide) (by decide) (by decide)
    (Or.inl (by decide))).1

/-- AUX-C10: a base64 encoding never starts with the characters
`s`, `k`, `-`. -/
theorem b64EncodeBytes_no_sk (bs : List Nat) :
    (b64EncodeBytes bs).take 3 ≠ ['s', 'k', '-'] := by
  intro hEq
  have hmem : '-' ∈ (b64EncodeBytes bs).take 3 := by rw [hEq]; simp
  have hm : '-' ∈ b64EncodeBytes bs := List.take_subset _ _ hmem
  rcases b64EncodeBytes_chars bs '-' hm with h | h
  · exact absurd h (by decide)
  · exact absurd h (by decide)

/-- AUX-C10: the encryption-migration loop body is skipped for every
key whose snapshot value is absent, falsy, or classified as
encrypted. -/
theorem migrateEncryptGo_noop (sens : List String)
    (rnd : Nat → Nat → List Nat × List Nat) (snapshot : NS)
    (h : ∀ k ∈ sens, ∀ v, nsLookup snapshot k = some v →
      v.truthy = false ∨ jvalIsEncrypted v = true) :
    ∀ keys : List String, (∀ k ∈ keys, k ∈ sens) →
      ∀ (live : NS) (i : Nat), migrateEncryptGo sens rnd snapshot keys live i = live := by
  intro keys
  induction keys with
  | nil => intro _ live i; rfl
  | cons k rest ih =>
      intro hsub live i
      unfold migrateEncryptGo
      cases hl : nsLookup snapshot k with
      | none => exact ih (fun x hx => hsub x (by simp [hx])) live i
      | some v =>
          have hcond : ¬(v.truthy = true ∧ (!jvalIsEncrypted v) = true) := by
            rintro ⟨ha, hb⟩
            rcases h k (hsub k (by simp)) v hl with h' | h'
            · rw [h'] at ha; cases ha
            · rw [h'] at hb; cases hb
          show (if v.truthy = true ∧ (!jvalIsEncrypted v) = true then
              migrateEncryptGo sens rnd snapshot rest
                (secureSet sens (rnd i) live [(k, v)]) (i + 1)
            else migrateEncryptGo sens rnd snapshot rest live i) = live
          rw [if_neg hcond]
          exact ih (fun x hx => hsub x (by simp [hx])) live i

/-- C10: every envelope `encrypt` produces — the empty plaintext
included — satisfies `isEncrypted`: it is base64 over the
`[A-Za-z0-9+/=]` alphabet, has at least the 59 characters implied by
salt + IV + one 16-byte block, and cannot begin with the plaintext-key
prefix `sk-` (whose `-` is outside the base64 alphabet); consequently
the encryption migration loop never touches a sensitive field whose
value it classifies as encrypted. -/
theorem isEncrypted_encrypt (P : String) (pw : Option String) (salt iv : List Nat)
    (hs : salt.length = 16) (hi : iv.length = 12) :
    isEncrypted (encrypt P pw salt iv) = true ∧
    base64RegexTest (encrypt P pw salt iv).data = true ∧
    59 ≤ (encrypt P pw salt iv).data.length ∧
    (encrypt P pw salt iv).data.take 3 ≠ ['s', 'k', '-'] ∧
    (∀ (sens : List String) (rnd : Nat → Nat → List Nat × List Nat) (ns : NS),
      (∀ k ∈ sens, ∀ v, nsLookup ns k = some v →
        v.truthy = false ∨ jvalIsEncrypted v = true) →
      migrateEncrypt sens rnd ns = ns) := by
  have hlen := envelope_bytes_length P pw salt iv hs hi
  have hdata : (encrypt P pw salt iv).data = b64EncodeBytes (salt ++ iv ++
      subtleEncrypt (deriveKey (resolvePassword pw) salt) iv (textEncode P)) := by
    rw [encrypt_eq]; rfl
  have hne : salt ++ iv ++ subtleEncrypt (deriveKey (resolvePassword pw) salt) iv
      (textEncode P) ≠ [] := by
    intro h
    rw [h] at hlen
    simp at hlen
    omega
  refine ⟨?_, ?_, ?_, ?_, ?_⟩
  · rw [encrypt_eq]
    exact isEncrypted_encode _ (by omega)
  · rw [hdata]
    exact base64RegexTest_encode _ hne
  · rw [hdata, b64EncodeBytes_length]
    omega
  · rw [hdata]
    exact b64EncodeBytes_no_sk _
  · intro sens rnd ns h
    unfold migrateEncrypt
    exact migrateEncryptGo_noop sens rnd ns h sens (fun k hk => hk) ns 0

/-- C10 witness: the empty plaintext's envelope is classified as
encrypted. -/
theorem isEncrypted_encrypt_witness :
    isEncrypted (encrypt "" none (List.range 16) (List.range 12)) = true :=
  (isEncrypted_encrypt "" none (List.range 16) (List.range 12)
    (by decide) (by decide)).1

/-! ### Secure storage lemmas -/

/-- AUX: a property write is visible to a read of the same key. -/
theorem nsLookup_nsSet_self (ns : NS) (k : String) (v : JVal) :
    nsLookup (nsSet ns k v) k = some v := by
  induction ns with
  | nil => simp [nsSet, nsLookup]
  | cons p rest ih =>
      obtain ⟨k', v'⟩ := p
      by_cases h : k' = k
      · subst h
        simp [nsSet, nsLookup]
      · simp [nsSet, nsLookup, h, ih]

/-- AUX: a property write leaves other keys unchanged. -/
theorem nsLookup_nsSet_ne (ns : NS) (k k' : String) (v : JVal) (h : k' ≠ k) :
    nsLookup (nsSet ns k' v) k = nsLookup ns k := by
  induction ns with
  | nil => simp [nsSet, nsLookup, h]
  | cons p rest ih =>
      obtain ⟨k'', v''⟩ := p
      by_cases h2 : k'' = k'
      · subst h2
        simp [nsSet, nsLookup, h]
      · simp [nsSet, nsLookup, h2, ih]

/-- C1 counterexample: writing the sensitive key `openaiKey` with the
non-empty (but whitespace-only) string `" "` stores the raw plaintext
in the namespace object, not an encrypted envelope — `set` only
encrypts when `value.trim()` is truthy. -/
theorem secureSet_whitespace_plaintext :
    nsLookup (secureSet sensitiveKeys (fun _ => (List.range 16, List.range 12)) []
      [("openaiKey", JVal.str " ")]) "openaiKey" = some (JVal.str " ") ∧
    isEncrypted " " = false := by decide

/-- C1 (amended): for a field in the sensitive-key list and a string
value that is non-empty after trimming, `set` stores an encrypted
envelope (different from the plaintext, and recognized by
`isEncrypted`) while `get` returns the original plaintext; for a field
not in the sensitive list, `set` stores the value unchanged and `get`
returns it unchanged. -/
theorem secureStorage_secret_classification
    (k s : String) (ns : NS) (salt iv : List Nat)
    (hk : k ∈ sensitiveKeys) (htrim : (jsTrim s).data.isEmpty = false)
    (hs : salt.length = 16) (hi : iv.length = 12)
    (hsb : ∀ b ∈ salt, b < 256) (hib : ∀ b ∈ iv, b < 256) :
    nsLookup (secureSet sensitiveKeys (fun _ => (salt, iv)) ns [(k, JVal.str s)]) k =
      some (JVal.str (encrypt s none salt iv)) ∧
    encrypt s none salt iv ≠ s ∧
    isEncrypted (encrypt s none salt iv) = true ∧
    secureGet sensitiveKeys
      (secureSet sensitiveKeys (fun _ => (salt, iv)) ns [(k, JVal.str s)]) [k] =
      [(k, JVal.str s)] ∧
    (∀ (k' : String) (v : JVal) (ns' : NS), k' ∉ sensitiveKeys →
      nsLookup (secureSet sensitiveKeys (fun _ => (salt, iv)) ns' [(k', v)]) k' =
        some v ∧
      secureGet sensitiveKeys
        (secureSet sensitiveKeys (fun _ => (salt, iv)) ns' [(k', v)]) [k'] =
        [(k', v)]) := by
  have hcont : sensitiveKeys.contains k = true := by simpa using hk
  have hsdata : s.data.isEmpty = false := by
    cases hd : s.data with
    | nil =>
        rw [show jsTrim s = String.mk ((s.data.dropWhile isWsChar).reverse.dropWhile
          isWsChar).reverse from rfl, hd] at htrim
        simp at htrim
    | cons c cs => rfl
  have htruthy : (JVal.str s).truthy = true := by
    simp [JVal.truthy, hsdata]
  have hset : secureSet sensitiveKeys (fun _ => (salt, iv)) ns [(k, JVal.str s)] =
      nsSet ns k (JVal.str (encrypt s none salt iv)) := by
    show setGo sensitiveKeys (fun _ => (salt, iv)) ns [(k, JVal.str s)] 0 =
      nsSet ns k (JVal.str (encrypt s none salt iv))
    unfold setGo
    rw [if_pos ⟨hcont, htruthy⟩]
    show (if (jsTrim s).data.isEmpty = true then
        setGo sensitiveKeys (fun _ => (salt, iv)) (nsSet ns k (JVal.str s)) [] 0
      else setGo sensitiveKeys (fun _ => (salt, iv))
        (nsSet ns k (JVal.str (encrypt s none salt iv))) [] 1) = _
    rw [if_neg (by simp [htrim])]
    rfl
  have henvdata : (encrypt s none salt iv).data = b64EncodeBytes (salt ++ iv ++
      subtleEncrypt (deriveKey (resolvePassword none) salt) iv (textEncode s)) := by
    rw [encrypt_eq]
    rfl
  have henvlen : (encrypt s none salt iv).data.length = 4 * (s.data.length + 15) := by
    rw [henvdata, b64EncodeBytes_length, envelope_bytes_length s none salt iv hs hi]
    omega
  have henvne : encrypt s none salt iv ≠ s := by
    intro heq
    have : (encrypt s none salt iv).data.length = s.data.length := by rw [heq]
    omega
  have hisenc := (isEncrypted_encrypt s none salt iv hs hi).1
  have henvtruthy : (JVal.str (encrypt s none salt iv)).truthy = true := by
    have : (encrypt s none salt iv).data.isEmpty = false := by
      cases hd : (encrypt s none salt iv).data with
      | nil => rw [hd] at henvlen; simp at henvlen
      | cons c cs => rfl
    simp [JVal.truthy, this]
  refine ⟨?_, henvne, hisenc, ?_, ?_⟩
  · rw [hset]
    exact nsLookup_nsSet_self ns k _
  · unfold secureGet
    rw [hset, nsLookup_nsSet_self ns k _]
    have hproc : getProcessValue sensitiveKeys k (JVal.str (encrypt s none salt iv)) =
        JVal.str s := by
      unfold getProcessValue
      rw [if_pos ⟨hcont, henvtruthy⟩]
      show (if isEncrypted (encrypt s none salt iv) = true then
          match decrypt (encrypt s none salt iv) none with
          | some plain => JVal.str plain
          | none => JVal.str (encrypt s none salt iv)
        else JVal.str (encrypt s none salt iv)) = JVal.str s
      rw [if_pos hisenc, decrypt_encrypt_roundtrip s none salt iv hs hi hsb hib]
    show (k, getProcessValue sensitiveKeys k (JVal.str (encrypt s none salt iv))) ::
        secureGet sensitiveKeys (nsSet ns k (JVal.str (encrypt s none salt iv))) [] =
      [(k, JVal.str s)]
    rw [hproc]
    rfl
  · intro k' v ns' hk'
    have hcont' : sensitiveKeys.contains k' = false := by simpa using hk'
    have hset' : secureSet sensitiveKeys (fun _ => (salt, iv)) ns' [(k', v)] =
        nsSet ns' k' v := by
      show setGo sensitiveKeys (fun _ => (salt, iv)) ns' [(k', v)] 0 = nsSet ns' k' v
      unfold setGo
      rw [if_neg (by rw [hcont']; rintro ⟨h1, -⟩; cases h1)]
      rfl
    refine ⟨by rw [hset']; exact nsLookup_nsSet_self ns' k' v, ?_⟩
    unfold secureGet
    rw [hset', nsLookup_nsSet_self ns' k' v]
    have hproc' : getProcessValue sensitiveKeys k' v = v := by
      unfold getProcessValue
      rw [if_neg (by rw [hcont']; rintro ⟨h1, -⟩; cases h1)]
    show (k', getProcessValue sensitiveKeys k' v) ::
        secureGet sensitiveKeys (nsSet ns' k' v) [] = [(k', v)]
    rw [hproc']
    rfl

/-! ### Symbolic cipher lemmas -/

/-- AUX: extracting the values of raw bytes succeeds. -/
theorem mapM_unraw_raw (l : List Nat) : (l.map SByte.raw).mapM unraw = some l := by
  induction l with
  | nil => rfl
  | cons x rest ih =>
      simp only [List.map_cons, List.mapM_cons, ih, unraw, Option.pure_def,
        Option.bind_eq_bind, Option.some_bind]

/-- AUX: only sequences of raw bytes extract, and to their values. -/
theorem mapM_unraw_some :
    ∀ (l : List SByte) (r : List Nat), l.mapM unraw = some r →
      l = r.map SByte.raw := by
  intro l
  induction l with
  | nil =>
      intro r h
      have h0 : some ([] : List Nat) = some r := by rw [← h]; rfl
      cases h0
      rfl
  | cons b rest ih =>
      intro r h
      cases b with
      | raw n =>
          rw [List.mapM_cons] at h
          simp only [unraw, Option.pure_def, Option.bind_eq_bind, Option.some_bind] at h
          cases hrest : rest.mapM unraw with
          | none => rw [hrest] at h; simp at h
          | some r' =>
              rw [hrest] at h
              simp only [Option.some_bind, Option.some.injEq] at h
              rw [← h, List.map_cons, ← ih r' hrest]
      | enc pw s i d j =>
          rw [List.mapM_cons] at h
          simp [unraw] at h

/-- AUX: length of an ideal ciphertext. -/
theorem symGcmEncrypt_length (pw : String) (salt iv d : List Nat) :
    (symGcmEncrypt pw salt iv d).length = d.length + 16 := by
  simp [symGcmEncrypt]

/-- AUX: head of an ideal ciphertext. -/
theorem symGcmEncrypt_head (pw : String) (salt iv d : List Nat) :
    (symGcmEncrypt pw salt iv d).head? = some (SByte.enc pw salt iv d 0) := by
  unfold symGcmEncrypt
  rw [show d.length + 16 = (d.length + 15) + 1 from rfl, List.range_succ_eq_map]
  rfl

/-- AUX: `symDecrypt` on a well-decoded envelope, written out. -/
theorem symDecrypt_valid (combined : List SByte) (pw : String) :
    symDecrypt (.valid combined) pw =
      match (combined.take 16).mapM unraw, ((combined.drop 16).take 12).mapM unraw with
      | some salt, some iv =>
          match symGcmDecrypt pw salt iv (combined.drop 28) with
          | some d => .ok d
          | none => .error .decryptionFailed
      | _, _ => .error .decryptionFailed := rfl

/-- AUX: ideal authenticated decryption rejects a wrong password. -/
theorem symGcmDecrypt_wrong_pw (pw1 pw2 : String) (salt iv P : List Nat)
    (hne : pw2 ≠ pw1) :
    symGcmDecrypt pw2 salt iv (symGcmEncrypt pw1 salt iv P) = none := by
  unfold symGcmDecrypt
  rw [symGcmEncrypt_head]
  show (if pw1 = pw2 ∧ salt = salt ∧ iv = iv ∧
      symGcmEncrypt pw1 salt iv P = symGcmEncrypt pw2 salt iv P
    then some P else none) = none
  rw [if_neg]
  rintro ⟨hpw, -⟩
  exact hne hpw.symm

/-- C3: decrypting an envelope produced under one password with any
different password fails with the single `DecryptionFailed` error kind;
a malformed (non-base64) envelope fails the same way; and decryption
never returns garbage — whenever it succeeds, its input was exactly an
honest encryption of the returned plaintext under the same password. -/
theorem decrypt_wrong_key_rejection (P : List Nat) (pw1 pw2 : String)
    (salt iv : List Nat) (hs : salt.length = 16) (hi : iv.length = 12)
    (hne : pw2 ≠ pw1) :
    symDecrypt (.valid (symEncrypt P pw1 salt iv)) pw2 =
      .error .decryptionFailed ∧
    (∀ s : String, symDecrypt (.badBase64 s) pw2 = .error .decryptionFailed) ∧
    (∀ (combined : List SByte) (pw : String) (d : List Nat),
      symDecrypt (.valid combined) pw = .ok d →
      ∃ salt' iv', salt'.length = 16 ∧ iv'.length = 12 ∧
        combined = symEncrypt d pw salt' iv') := by
  refine ⟨?_, fun s => rfl, ?_⟩
  · have hs' : (salt.map SByte.raw).length = 16 := by rw [List.length_map, hs]
    have hi' : (iv.map SByte.raw).length = 12 := by rw [List.length_map, hi]
    obtain ⟨h1, h2, h3⟩ := envelope_slices (salt.map SByte.raw) (iv.map SByte.raw)
      (symGcmEncrypt pw1 salt iv P) hs' hi'
    have hA : ((symEncrypt P pw1 salt iv).take 16).mapM unraw = some salt := by
      unfold symEncrypt
      rw [h1]
      exact mapM_unraw_raw salt
    have hB : (((symEncrypt P pw1 salt iv).drop 16).take 12).mapM unraw = some iv := by
      unfold symEncrypt
      rw [h2]
      exact mapM_unraw_raw iv
    have hC : (symEncrypt P pw1 salt iv).drop 28 = symGcmEncrypt pw1 salt iv P := by
      unfold symEncrypt
      exact h3
    rw [symDecrypt_valid, hA, hB]
    show (match symGcmDecrypt pw2 salt iv ((symEncrypt P pw1 salt iv).drop 28) with
        | some d => Except.ok d
        | none => Except.error DecryptErr.decryptionFailed) =
      Except.error DecryptErr.decryptionFailed
    rw [hC, symGcmDecrypt_wrong_pw pw1 pw2 salt iv P hne]
  · intro combined pw d h
    rw [symDecrypt_valid] at h
    cases hsalt : (combined.take 16).mapM unraw with
    | none =>
        rw [hsalt] at h
        cases hiv : ((combined.drop 16).take 12).mapM unraw with
        | none =>
            rw [hiv] at h
            exact absurd h (by simp)
        | some iv' =>
            rw [hiv] at h
            exact absurd h (by simp)
    | some salt' =>
        cases hiv : ((combined.drop 16).take 12).mapM unraw with
        | none =>
            rw [hsalt, hiv] at h
            exact absurd h (by simp)
        | some iv' =>
            rw [hsalt, hiv] at h
            have h2 : (match symGcmDecrypt pw salt' iv' (combined.drop 28) with
                | some x => Except.ok x
                | none => Except.error DecryptErr.decryptionFailed) =
                Except.ok (ε := DecryptErr) d := h
            cases hdec : symGcmDecrypt pw salt' iv' (combined.drop 28) with
            | none =>
                rw [hdec] at h2
                exact absurd h2 (by simp)
            | some d' =>
                rw [hdec] at h2
                have hd : d' = d := by
                  cases h2
                  rfl
                subst hd
                unfold symGcmDecrypt at hdec
                cases hhead : (combined.drop 28).head? with
                | none =>
                    rw [hhead] at hdec
                    exact absurd hdec (by simp)
                | some b =>
                    rw [hhead] at hdec
                    cases b with
                    | raw n => exact absurd hdec (by simp)
                    | enc pw' s' i' d0 j =>
                        have hdec2 : (if pw' = pw ∧ s' = salt' ∧ i' = iv' ∧
                            combined.drop 28 = symGcmEncrypt pw salt' iv' d0
                          then some d0 else none) = some d' := hdec
                        by_cases hcond : pw' = pw ∧ s' = salt' ∧ i' = iv' ∧
                          combined.drop 28 = symGcmEncrypt pw salt' iv' d0
                        · rw [if_pos hcond] at hdec2
                          have hd0 : d0 = d' := by cases hdec2; rfl
                          subst hd0
                          have hct := hcond.2.2.2
                          have hctlen : (combined.drop 28).length = d0.length + 16 := by
                            rw [hct, symGcmEncrypt_length]
                          have hclen : 28 < combined.length := by
                            have := List.length_drop 28 combined
                            omega
                          have htk : (combined.take 16).length = 16 := by
                            rw [List.length_take]
                            omega
                          have htk2 : ((combined.drop 16).take 12).length = 12 := by
                            rw [List.length_take, List.length_drop]
                            omega
                          refine ⟨salt', iv', ?_, ?_, ?_⟩
                          · have := mapM_unraw_some _ _ hsalt
                            have hlen : salt'.length = (combined.take 16).length := by
                              rw [this, List.length_map]
                            omega
                          · have := mapM_unraw_some _ _ hiv
                            have hlen : iv'.length = ((combined.drop 16).take 12).length := by
                              rw [this, List.length_map]
                            omega
                          · unfold symEncrypt
                            rw [← mapM_unraw_some _ _ hsalt, ← mapM_unraw_some _ _ hiv,
                              ← hct]
                            rw [show (28 : Nat) = 16 + 12 from rfl, ← List.drop_drop]
                            rw [List.append_assoc, List.take_append_drop,
                              List.take_append_drop]
                        · rw [if_neg hcond] at hdec2
                          cases hdec2

/-- C3 witness: wrong-password rejection at a concrete envelope. -/
theorem decrypt_wrong_key_rejection_witness :
    symDecrypt (.valid (symEncrypt [1, 2, 3] "pw-one" (List.replicate 16 0)
      (List.replicate 12 0))) "pw-two" = .error .decryptionFailed :=
  (decrypt_wrong_key_rejection [1, 2, 3] "pw-one" "pw-two" (List.replicate 16 0)
    (List.replicate 12 0) (by decide) (by decide) (by decide)).1

/-- C1 witness: the amended claim at a concrete key, plaintext and
randomness. -/
theorem secureStorage_secret_classification_witness :
    secureGet sensitiveKeys
      (secureSet sensitiveKeys (fun _ => (List.range 16, List.range 12)) []
        [("openaiKey", JVal.str "my-api-key")]) ["openaiKey"] =
      [("openaiKey", JVal.str "my-api-key")] :=
  (secureStorage_secret_classification "openaiKey" "my-api-key" [] (List.range 16)
    (List.range 12) (by decide) (by decide) (by decide) (by decide) (by decide)
    (by decide)).2.2.2.1

/-! ### Migration lemmas -/

/-- AUX: the layout migration when flat data is present. -/
theorem migrate_eq_pos (st : ChromeStore) (h : hasOldData st = true) :
    migrateFromFlatStorage st =
      { tabber := some (mergeOldKeys st.flat (st.tabber.getD [])),
        flat := st.flat.filter fun p => !oldKeys.contains p.1 } := by
  unfold migrateFromFlatStorage
  rw [if_pos h]

/-- AUX: the layout migration when no flat data is present. -/
theorem migrate_eq_neg (st : ChromeStore) (h : ¬hasOldData st = true) :
    migrateFromFlatStorage st = st := by
  unfold migrateFromFlatStorage
  rw [if_neg h]

/-- AUX: after `storage.remove(oldKeys)`, no old key resolves in the
flat area. -/
theorem nsLookup_filter_oldKeys (flat : NS) (k : String) (hk : k ∈ oldKeys) :
    nsLookup (flat.filter fun p => !oldKeys.contains p.1) k = none := by
  have hkc : oldKeys.contains k = true := by simpa using hk
  induction flat with
  | nil => rfl
  | cons p rest ih =>
      obtain ⟨k', v'⟩ := p
      by_cases h : oldKeys.contains k' = true
      · have hpred : (fun p : String × JVal => !oldKeys.contains p.1) (k', v') = false := by
          show (!oldKeys.contains k') = false
          rw [h]
          rfl
        simp only [List.filter_cons, hpred, Bool.false_eq_true, if_false]
        exact ih
      · have h' : oldKeys.contains k' = false := by
          simpa using h
        have hpred : (fun p : String × JVal => !oldKeys.contains p.1) (k', v') = true := by
          show (!oldKeys.contains k') = true
          rw [h']
          rfl
        simp only [List.filter_cons, hpred, if_true]
        have hne : k' ≠ k := by
          intro he
          rw [he, hkc] at h
          exact h rfl
        unfold nsLookup
        rw [if_neg hne]
        exact ih

/-- AUX: a store whose flat area went through `remove(oldKeys)` has no
old data. -/
theorem hasOldData_filtered (tb : Option NS) (flat : NS) :
    hasOldData ⟨tb, flat.filter fun p => !oldKeys.contains p.1⟩ = false := by
  unfold hasOldData
  rw [List.any_eq_false]
  intro k hk
  show ¬(match nsLookup (flat.filter fun p => !oldKeys.contains p.1) k with
    | some v => v != JVal.undef
    | none => false) = true
  rw [nsLookup_filter_oldKeys flat k hk]
  simp

/-- C7: running the layout migration twice in a row produces the same
final store as running it once — after an effective first run every
flat key is gone, so the second run detects no flat data and is a
no-op. -/
theorem migrateFromFlatStorage_idempotent (st : ChromeStore) :
    migrateFromFlatStorage (migrateFromFlatStorage st) = migrateFromFlatStorage st := by
  by_cases h : hasOldData st = true
  · rw [migrate_eq_pos st h]
    apply migrate_eq_neg
    rw [hasOldData_filtered]
    simp
  · rw [migrate_eq_neg st h, migrate_eq_neg st h]

/-- AUX: one merge step never changes a key already present in the
namespace object. -/
theorem mergeStep_preserves (flat td : NS) (key k : String) (w : JVal)
    (h : nsLookup td k = some w) : nsLookup (mergeStep flat td key) k = some w := by
  unfold mergeStep
  cases hf : nsLookup flat key with
  | none => exact h
  | some v =>
      show nsLookup (if v ≠ JVal.undef ∧ nsLookup td key = none
        then nsSet td key v else td) k = some w
      by_cases hc : v ≠ JVal.undef ∧ nsLookup td key = none
      · rw [if_pos hc]
        have hkey : key ≠ k := by
          intro he
          rw [he, h] at hc
          exact Option.noConfusion hc.2
        rw [nsLookup_nsSet_ne td k key v hkey]
        exact h
      · rw [if_neg hc]
        exact h

/-- AUX: the whole copy loop never changes a key already present in
the namespace object. -/
theorem mergeOldKeysGo_preserves (flat : NS) (k : String) (w : JVal) :
    ∀ (keys : List String) (td : NS), nsLookup td k = some w →
      nsLookup (mergeOldKeysGo flat keys td) k = some w := by
  intro keys
  induction keys with
  | nil => intro td h; exact h
  | cons key rest ih =>
      intro td h
      exact ih _ (mergeStep_preserves flat td key k w h)

/-- C6: for a field present both as a legacy flat key and inside the
namespace object, the layout migration keeps the namespace value (the
flat value does not overwrite it) and deletes the flat key. -/
theorem migration_non_clobber (st : ChromeStore) (k : String) (v w : JVal) (td : NS)
    (hk : k ∈ oldKeys) (hflat : nsLookup st.flat k = some v) (hv : v ≠ JVal.undef)
    (htb : st.tabber = some td) (htd : nsLookup td k = some w) :
    (migrateFromFlatStorage st).tabber = some (mergeOldKeys st.flat td) ∧
    nsLookup (mergeOldKeys st.flat td) k = some w ∧
    nsLookup (migrateFromFlatStorage st).flat k = none := by
  have hasOld : hasOldData st = true := by
    unfold hasOldData
    rw [List.any_eq_true]
    refine ⟨k, hk, ?_⟩
    show (match nsLookup st.flat k with
      | some v => v != JVal.undef
      | none => false) = true
    rw [hflat]
    simpa using hv
  rw [migrate_eq_pos st hasOld]
  refine ⟨?_, ?_, ?_⟩
  · show some (mergeOldKeys st.flat (st.tabber.getD [])) = some (mergeOldKeys st.flat td)
    rw [htb]
    rfl
  · exact mergeOldKeysGo_preserves st.flat k w oldKeys td htd
  · exact nsLookup_filter_oldKeys st.flat k hk

/-- C6 witness: a concrete store where `openaiKey` exists in both
layouts with different values. -/
theorem migration_non_clobber_witness :
    nsLookup (mergeOldKeys [("openaiKey", JVal.str "old-flat-value")]
      [("openaiKey", JVal.str "new-nested-value")]) "openaiKey" =
      some (JVal.str "new-nested-value") :=
  (migration_non_clobber
    ⟨some [("openaiKey", JVal.str "new-nested-value")],
      [("openaiKey", JVal.str "old-flat-value")]⟩
    "openaiKey" (JVal.str "old-flat-value") (JVal.str "new-nested-value")
    [("openaiKey", JVal.str "new-nested-value")]
    (by decide) (by decide) (by decide) (by decide) (by decide)).2.1

/-! ### Sanitizer rule-order facts -/

/-- C5 counterexample: on the credit-card-shaped input
`"4111111111111111"`, `sanitizeText` does not produce the credit-card
placeholder: the phone rule, which runs earlier, consumes ten of the
sixteen digits, and the output `"[PHONE]111111"` carries residual
digits from the more specific category. -/
theorem sanitizeText_card_counterexample :
    sanitizeText "4111111111111111" = "[PHONE]111111" ∧
    (sanitizeText "4111111111111111").data.any Char.isDigit = true := by decide

/-- C5 (amended): in `sanitizeText` the account-number catch-all runs
*before* credit card and SSN (not after), and the phone rule runs
before all of them.  A separator-delimited SSN still receives its own
`[SSN]` placeholder, because no earlier rule can match across its
3-2-4 grouping; but credit-card-shaped digit groups are consumed by
the earlier phone rule, leaving residual digits
(`"[PHONE]111111"`) or partial phone redactions
(`"4[PHONE]-[PHONE]"`) rather than `[CARD]`. -/
theorem sanitizeText_rule_order :
    sanitizeText "123-45-6789" = "[SSN]" ∧
    sanitizeText "Card 4111111111111111 and SSN 123-45-6789" =
      "Card [PHONE]111111 and SSN [SSN]" ∧
    sanitizeText "4111-1111-1111-1111" = "4[PHONE]-[PHONE]" := by decide

/-! ### Response-parser facts -/

/-- C8: `parseResponse` never propagates an error: when the response
holds no brace-delimited substring it returns the default decision;
when the extracted substring fails to parse as JSON it returns the
default decision; a JSON object wrapped in prose still parses into its
`groupName`/`color`; and an object missing the fields yields the
default `{groupName: "Misc", color: "grey"}`. -/
theorem parseResponse_spec :
    (∀ r : String, braceMatch r.data = none → parseResponse r = defaultDecision) ∧
    (∀ (r : String) (sub : List Char), braceMatch r.data = some sub →
      jsonParse sub = none → parseResponse r = defaultDecision) ∧
    parseResponse
      "I think this is about coding. \x7b\"groupName\": \"Dev\", \"color\": \"blue\"\x7d" =
      ⟨Json.jstr "Dev", Json.jstr "blue"⟩ ∧
    parseResponse "\x7b\x7d" = defaultDecision := by
  refine ⟨?_, ?_, rfl, rfl⟩
  · intro r h
    unfold parseResponse
    rw [h]
  · intro r sub h h2
    unfold parseResponse
    rw [h]
    show (match jsonParse sub with
      | some parsed =>
          Decision.mk (getFieldOr parsed "groupName" (Json.jstr "Misc"))
            (getFieldOr parsed "color" (Json.jstr "grey"))
      | none => defaultDecision) = defaultDecision
    rw [h2]

/-- C8 witness: a response with no JSON degrades to the default
decision. -/
theorem parseResponse_spec_witness :
    parseResponse "no json at all" = defaultDecision :=
  parseResponse_spec.1 "no json at all" (by decide)

end Tabber
